import Mathlib

/-!
# lamb: a terminal dashboard for serverless functions

A shallow embedding of `main.go`.  The AWS clients (`svc`, `cw`) are external:
they are a record of response functions, and every function of the program
returns, next to its Go result tuple, the list of backend calls it issued, in
order.  A Go result `(value, error)` is a pair whose second component is
`none` for `nil`; a `nil` slice is the empty list.  The terminal library
(gocui) and the Go standard library are external too: what the program needs of
them is either a field of `Lib` or a small model marked as such.
-/

namespace Lamb

/-! ## Data model -/

/-- A non-nil Go `error`, identified by its message. -/
structure GoError where
  msg : String
deriving DecidableEq, Repr

/-- The record `cloudwatchlogs.OutputLogEvent`; the SDK's fields are pointers. -/
structure OutputLogEvent where
  timestamp : Option Int
  message : Option String
deriving DecidableEq, Repr

/-- The record `cloudwatchlogs.LogStream` (the field the program reads). -/
structure LogStream where
  logStreamName : Option String
deriving DecidableEq, Repr

/-- The record `cloudwatchlogs.LogGroup` (the field the program reads). -/
structure LogGroup where
  logGroupName : Option String
deriving DecidableEq, Repr

/-- The record `lambda.FunctionConfiguration` (the fields the program reads). -/
structure FunctionConfiguration where
  functionName : Option String
  description : Option String
  lastModified : Option String
  memorySize : Option Int
  role : Option String
  runtime : Option String
  timeout : Option Int
deriving DecidableEq, Repr

/-- The request `cloudwatchlogs.DescribeLogStreamsInput`. -/
structure DescribeLogStreamsInput where
  orderBy : Option String
  logGroupName : Option String
  limit : Option Int
  descending : Option Bool
deriving DecidableEq, Repr

/-- The request `cloudwatchlogs.GetLogEventsInput`. -/
structure GetLogEventsInput where
  logGroupName : Option String
  logStreamName : Option String
deriving DecidableEq, Repr

/-- The request `cloudwatchlogs.DescribeLogGroupsInput`. -/
structure DescribeLogGroupsInput where
  logGroupNameStart : Option String
deriving DecidableEq, Repr

/-- The request `lambda.GetFunctionConfigurationInput`. -/
structure GetFunctionConfigurationInput where
  functionName : Option String
deriving DecidableEq, Repr

/-- One recorded action, in the order of issue: a call to the backend, or a
log line handed to `colorizeLogLine` and written to the log view (`renderLine`,
with the two arguments of that call). -/
inductive Call where
  | describeLogStreams (input : DescribeLogStreamsInput)
  | getLogEvents (input : GetLogEventsInput)
  | describeLogGroups (input : DescribeLogGroupsInput)
  | getFunctionConfiguration (input : GetFunctionConfigurationInput)
  | listFunctions
  | renderLine (logLine : String) (timestamp : Int)
deriving DecidableEq, Repr

/-- The two package-level clients `svc` and `cw`: what each API call answers.
`GetFunctionConfiguration` answers with its output record and its error, as the
SDK does (`return out, req.Send()`). -/
structure Clients where
  describeLogStreams : DescribeLogStreamsInput → Except GoError (List LogStream)
  getLogEvents : GetLogEventsInput → Except GoError (List OutputLogEvent)
  describeLogGroups : DescribeLogGroupsInput → Except GoError (List LogGroup)
  getFunctionConfiguration :
    GetFunctionConfigurationInput → FunctionConfiguration × Option GoError
  listFunctions : Except GoError (List FunctionConfiguration)

/-- The helper `aws.StringValue`: the pointed string, `""` for nil. -/
def StringValue (p : Option String) : String := p.getD ""

/-- The helper `aws.Int64Value`: the pointed integer, `0` for nil. -/
def Int64Value (p : Option Int) : Int := p.getD 0

/-! ## getLogs -/

/-- The request built at the top of `getLogs`. -/
def streamInput (logroup : String) : DescribeLogStreamsInput :=
  { orderBy := some "LastEventTime", logGroupName := some logroup,
    limit := some 2, descending := some true }

/-- The request built in the loop of `getLogs` for one stream. -/
def eventsInput (logroup : String) (stream : LogStream) : GetLogEventsInput :=
  { logGroupName := some logroup, logStreamName := stream.logStreamName }

/-- The loop `for _, stream := range streams.LogStreams` of `getLogs`, from
the streams still to visit, the current `allEvents` and the calls made so
far. -/
def getLogsLoop (cw : Clients) (logroup : String) :
    List LogStream → List OutputLogEvent → List Call →
      (List OutputLogEvent × Option GoError) × List Call
  | [], allEvents, calls => ((allEvents, none), calls)
  | stream :: rest, allEvents, calls =>
    let input := eventsInput logroup stream
    match cw.getLogEvents input with
    | .error err => (([], some err), calls ++ [Call.getLogEvents input])
    | .ok r => getLogsLoop cw logroup rest (r ++ allEvents) (calls ++ [Call.getLogEvents input])

/-- The function `getLogs`: its Go result `(events, err)` and the calls it made. -/
def getLogs (cw : Clients) (logroup : String) :
    (List OutputLogEvent × Option GoError) × List Call :=
  match cw.describeLogStreams (streamInput logroup) with
  | .error err => (([], some err), [Call.describeLogStreams (streamInput logroup)])
  | .ok streams =>
    getLogsLoop cw logroup streams [] [Call.describeLogStreams (streamInput logroup)]

/-! ## Standard-library and terminal-library functions taken as given -/

/-- One view of the terminal library: the text it holds, origin, cursor,
autoscroll flag and the number of visible columns and rows (`Size()`). -/
structure View where
  buffer : String
  ox : Int
  oy : Int
  cx : Int
  cy : Int
  autoscroll : Bool
  sizeX : Int
  sizeY : Int
deriving DecidableEq, Repr

/-- External functions whose code is outside the repository.
* `timeString sec` is `time.Unix(sec, 0)` as `%s` prints it;
* `format0 f` is what `fmt.Fprintf(w, f)` writes for a format `f` without
  operands;
* `viewLine v y` is gocui's `v.Line(y)`;
* `moveCursor v dx dy writeMode` is gocui's `v.MoveCursor(dx, dy, writeMode)`. -/
structure Lib where
  timeString : Int → String
  format0 : String → String
  viewLine : View → Int → String × Option GoError
  moveCursor : View → Int → Int → Bool → View

/-- The function `strings.HasPrefix`. -/
def HasPrefix (s start : String) : Bool := start.toList.isPrefixOf s.toList

/-! ## colorizeLogLine -/

/-- The function `colorizeLogLine`. -/
def colorizeLogLine (lib : Lib) (logLine : String) (timestamp : Int) : String :=
  let tm := lib.timeString timestamp
  if HasPrefix logLine "START RequestId:" || HasPrefix logLine "END RequestId:"
      || HasPrefix logLine "REPORT RequestId:" then
    "\x1b[32;5m" ++ tm ++ "\x1b[0m - \x1b[32;7m" ++ logLine ++ "\x1b[0m\n"
  else
    "\x1b[32;5m" ++ tm ++ "\x1b[0m - " ++ logLine ++ "\n"

/-- The three lifecycle markers. -/
def markers : List String := ["START RequestId:", "END RequestId:", "REPORT RequestId:"]

/-- A message begins with one of the three markers. -/
def BeginsWithMarker (msg : String) : Prop := ∃ m ∈ markers, m.toList <+: msg.toList

/-- The rendered time stamp that opens every line. -/
def stamp (lib : Lib) (timestamp : Int) : String :=
  "\x1b[32;5m" ++ lib.timeString timestamp ++ "\x1b[0m"

/-- A line in the inverse style: stamp, then `ESC[32;7m message ESC[0m`. -/
def inverseStyle (lib : Lib) (msg : String) (timestamp : Int) : String :=
  stamp lib timestamp ++ " - " ++ ("\x1b[32;7m" ++ msg ++ "\x1b[0m") ++ "\n"

/-- A line in the plain style: stamp, then the message as it is. -/
def plainStyle (lib : Lib) (msg : String) (timestamp : Int) : String :=
  stamp lib timestamp ++ " - " ++ msg ++ "\n"

/-! ## The terminal library, as far as the program uses it -/

/-- The three views `layout` creates.  The key handlers run from the main loop,
after `layout`, so `g.View` finds each of them. -/
structure Gui where
  side : View
  logs : View
  state : View
deriving DecidableEq, Repr

/-- Modelled from the spec: gocui's `View.SetCursor`, which is not part of the
repository.  It fails, leaving the view as it was, exactly when the point is
outside the view's columns or rows. -/
def SetCursor (v : View) (x y : Int) : View × Option GoError :=
  if x < 0 ∨ x ≥ v.sizeX ∨ y < 0 ∨ y ≥ v.sizeY then (v, some ⟨"invalid point"⟩)
  else ({ v with cx := x, cy := y }, none)

/-- Modelled from the spec: gocui's `View.SetOrigin`, which is not part of the
repository.  It fails, leaving the view as it was, exactly on a negative
coordinate. -/
def SetOrigin (v : View) (x y : Int) : View × Option GoError :=
  if x < 0 ∨ y < 0 then (v, some ⟨"invalid point"⟩)
  else ({ v with ox := x, oy := y }, none)

/-- Modelled from the spec: gocui's `View.Clear`, which empties the buffer. -/
def Clear (v : View) : View := { v with buffer := "" }

/-- Modelled from the spec: gocui's `View.Write`, which appends to the buffer. -/
def Write (v : View) (text : String) : View := { v with buffer := v.buffer ++ text }

/-- Modelled from the spec: gocui's `View.ViewBuffer`, the text the view holds,
one newline for each of its lines. -/
def ViewBuffer (v : View) : String := v.buffer

/-- The call `strings.Count(s, "\n")`. -/
def countNewlines (s : String) : Int := ((s.toList.count '\n' : Nat) : Int)

/-- The number of lines of a view: the newlines of its buffer. -/
def totalLines (v : View) : Int := countNewlines (ViewBuffer v)

/-- Modelled from the spec: the library's redraw of a view, which is not part
of the repository ("Append: if autoscroll = true, origin is advanced so the
last line is visible (origin = max(0, totalLines − visibleHeight)); cursor
unaffected"). -/
def redraw (v : View) : View :=
  if v.autoscroll then { v with oy := max 0 (totalLines v - v.sizeY) } else v

/-! ## updateLogsView -/

/-- The function `getLogGroup`. -/
def getLogGroup (cw : Clients) (functionName : String) :
    (List LogGroup × Option GoError) × List Call :=
  let logGroupsInput : DescribeLogGroupsInput := ⟨some ("/aws/lambda/" ++ functionName)⟩
  match cw.describeLogGroups logGroupsInput with
  | .error err => (([], some err), [Call.describeLogGroups logGroupsInput])
  | .ok logGroups => ((logGroups, none), [Call.describeLogGroups logGroupsInput])

/-- The inner loop `for _, log := range logs` of `updateLogsView`: each event
is colorized with its time stamp divided by 1000 (Go's truncating division) and
written with the colorized line as the format. -/
def renderLogs (lib : Lib) : View → List OutputLogEvent → List Call → View × List Call
  | v, [], calls => (v, calls)
  | v, log :: rest, calls =>
    let logLine := StringValue log.message
    let timestamp := Int.tdiv (Int64Value log.timestamp) 1000
    renderLogs lib (Write v (lib.format0 (colorizeLogLine lib logLine timestamp))) rest
      (calls ++ [Call.renderLine logLine timestamp])

/-- The outer loop `for _, logGroup := range logGroups` of `updateLogsView`. -/
def updateLogsGroups (lib : Lib) (cw : Clients) :
    View → List LogGroup → List Call → (View × Option GoError) × List Call
  | v, [], calls => ((v, none), calls)
  | v, logGroup :: rest, calls =>
    match getLogs cw (StringValue logGroup.logGroupName) with
    | ((_, some err), cs) => ((v, some err), calls ++ cs)
    | ((logs, none), cs) =>
      let (v1, calls1) := renderLogs lib v logs (calls ++ cs)
      updateLogsGroups lib cw v1 rest calls1

/-- The first four statements of `updateLogsView` on the log view; the results
of `SetCursor` and `SetOrigin` are dropped, as in the source. -/
def resetLogs (v : View) : View :=
  let v := Clear v
  let v := (SetCursor v 0 0).1
  let v := (SetOrigin v 0 0).1
  { v with autoscroll := true }

/-- The function `updateLogsView`. -/
def updateLogsView (lib : Lib) (cw : Clients) (g : Gui) (functionName : String) :
    (Gui × Option GoError) × List Call :=
  let v := resetLogs g.logs
  match getLogGroup cw functionName with
  | ((_, some err), cs) => (({ g with logs := v }, some err), cs)
  | ((logGroups, none), cs) =>
    match updateLogsGroups lib cw v logGroups cs with
    | ((v1, err), calls) => (({ g with logs := v1 }, err), calls)

/-! ## Sorting and searching strings -/

/-- The bytes of a Go string (UTF-8). -/
def bytes (s : String) : List Nat :=
  s.toList.flatMap (fun c => (String.utf8EncodeChar c).map UInt8.toNat)

/-- Lexicographic `≤` of byte sequences. -/
def lexLE : List Nat → List Nat → Bool
  | [], _ => true
  | _ :: _, [] => false
  | a :: as, b :: bs => decide (a < b) || (decide (a = b) && lexLE as bs)

/-- Go's `a <= b` on strings: byte-wise lexicographic order. -/
def StringLE (a b : String) : Prop := lexLE (bytes a) (bytes b) = true

instance instDecidableStringLE : DecidableRel StringLE :=
  fun a b => inferInstanceAs (Decidable (lexLE (bytes a) (bytes b) = true))

/-- The library function `sort.Strings`: the strings in increasing order
(strings that compare equal are the same string, so the algorithm does not
show in the result). -/
def sortStrings (l : List String) : List String := l.insertionSort StringLE

/-- Some suffix of `s` begins with `sub`. -/
def containsChars (sub : List Char) : List Char → Bool
  | [] => sub.isPrefixOf []
  | c :: cs => sub.isPrefixOf (c :: cs) || containsChars sub cs

/-- The function `strings.Contains`. -/
def Contains (s substr : String) : Bool := containsChars substr.toList s.toList

/-- The function `strconv.Itoa`. -/
def Itoa (n : Int) : String := toString n

/-! ## The status view and the refresh cycle -/

/-- The function `getLambdaStatus`: the error of the call is assigned to `_`
and `nil` is returned in its place. -/
def getLambdaStatus (svc : Clients) (functionName : String) :
    (FunctionConfiguration × Option GoError) × List Call :=
  let input : GetFunctionConfigurationInput := ⟨some functionName⟩
  let status := (svc.getFunctionConfiguration input).1
  ((status, none), [Call.getFunctionConfiguration input])

/-- The map `fields` of `updateLambdaStatusView`. -/
def statusFields (lambdaConfig : FunctionConfiguration) : List (String × String) :=
  [("Description", StringValue lambdaConfig.description),
   ("Last modified", StringValue lambdaConfig.lastModified),
   ("memory size", Itoa (Int64Value lambdaConfig.memorySize)),
   ("role", StringValue lambdaConfig.role),
   ("runtime", StringValue lambdaConfig.runtime),
   ("timeout", Itoa (Int64Value lambdaConfig.timeout))]

/-- The function `updateLambdaStatusView`. -/
def updateLambdaStatusView (svc : Clients) (g : Gui) (functionName : String) :
    (Gui × Option GoError) × List Call :=
  match getLambdaStatus svc functionName with
  | ((_, some err), cs) => ((g, some err), cs)
  | ((lambdaConfig, none), cs) =>
    let v := Clear g.state
    let fields := statusFields lambdaConfig
    let keys := sortStrings (fields.map Prod.fst)
    let v := keys.foldl
      (fun v title =>
        Write v ("\x1b[32;5m" ++ title ++ "\x1b[0m " ++ (fields.lookup title).getD "" ++ "\n"))
      v
    (({ g with state := v }, none), cs)

/-- The function `updateView`. -/
def updateView (lib : Lib) (cl : Clients) (g : Gui) : (Gui × Option GoError) × List Call :=
  let v := g.side
  let cy := v.cy
  let functionName :=
    match lib.viewLine v cy with
    | (name, none) => name
    | (_, some _) => ""
  if functionName ≠ "" then
    match updateLambdaStatusView cl g functionName with
    | ((g1, some err), cs) => ((g1, some err), cs)
    | ((g1, none), cs) =>
      match updateLogsView lib cl g1 functionName with
      | ((g2, some err), cs2) => ((g2, some err), cs ++ cs2)
      | ((g2, none), cs2) => ((g2, none), cs ++ cs2)
  else ((g, none), [])

/-! ## layout: the entity list -/

/-- The function `ListLambdaFunctions`. -/
def ListLambdaFunctions (svc : Clients) :
    (List FunctionConfiguration × Option GoError) × List Call :=
  match svc.listFunctions with
  | .error err => (([], some err), [Call.listFunctions])
  | .ok functions => ((functions, none), [Call.listFunctions])

/-- The loop `for _, f := range functions` of `layout`, from the current
`functionNames`. -/
def functionNamesLoop (functionNameFilter : String) :
    List FunctionConfiguration → List String → List String
  | [], functionNames => functionNames
  | f :: rest, functionNames =>
    let name := StringValue f.functionName
    if functionNameFilter ≠ "" then
      if Contains name functionNameFilter then
        functionNamesLoop functionNameFilter rest (functionNames ++ [name])
      else functionNamesLoop functionNameFilter rest functionNames
    else functionNamesLoop functionNameFilter rest (functionNames ++ [name])

/-- The names `layout` displays: the loop, then `sort.Strings`. -/
def displayedNames (functionNameFilter : String) (functions : List FunctionConfiguration) :
    List String :=
  sortStrings (functionNamesLoop functionNameFilter functions [])

/-- The part of `layout` that runs when the view `side` has just been created
(lines 205 to 229), on that view: each name is written with `Fprintln`. -/
def layoutSide (svc : Clients) (functionNameFilter : String) (v : View) :
    (View × Option GoError) × List Call :=
  match ListLambdaFunctions svc with
  | ((_, some err), cs) => ((v, some err), cs)
  | ((functions, none), cs) =>
    (((displayedNames functionNameFilter functions).foldl (fun v n => Write v (n ++ "\n")) v,
      none), cs)

/-! ## Navigation -/

/-- The function `cursorDown`; `none` is the nil view. -/
def cursorDown (v : Option View) : Option View × Option GoError :=
  match v with
  | none => (none, none)
  | some v =>
    match SetCursor v v.cx (v.cy + 1) with
    | (v1, some _) =>
      match SetOrigin v1 v1.ox (v1.oy + 1) with
      | (v2, some err) => (some v2, some err)
      | (v2, none) => (some v2, none)
    | (v1, none) => (some v1, none)

/-- The function `cursorUp`; `none` is the nil view. -/
def cursorUp (v : Option View) : Option View × Option GoError :=
  match v with
  | none => (none, none)
  | some v =>
    let ox := v.ox
    let oy := v.oy
    match SetCursor v v.cx (v.cy - 1) with
    | (v1, some _) =>
      if oy > 0 then
        match SetOrigin v1 ox (oy - 1) with
        | (v2, some err) => (some v2, some err)
        | (v2, none) => (some v2, none)
      else (some v1, none)
    | (v1, none) => (some v1, none)

/-- The body of `scroll` on the view `logs`. -/
def scrollView (lib : Lib) (v : View) (dy : Int) : View :=
  let y := v.sizeY
  let oy := v.oy
  if oy + dy > countNewlines (ViewBuffer v) - y - 1 then
    { v with autoscroll := true }
  else
    lib.moveCursor { v with autoscroll := false } 0 dy false

/-- The function `scroll`. -/
def scroll (lib : Lib) (g : Gui) (dy : Int) : Gui :=
  { g with logs := scrollView lib g.logs dy }

/-- The function `logsDown`. -/
def logsDown (lib : Lib) (g : Gui) : Gui × Option GoError := (scroll lib g 5, none)

/-- The function `logsUp`. -/
def logsUp (lib : Lib) (g : Gui) : Gui × Option GoError := (scroll lib g (-5), none)

/-! ## The viewport as a state machine -/

/-- One operation on a viewport. -/
inductive Op where
  | append (text : String)
  | scrollDown
  | scrollUp
  | cursorDown
  | cursorUp
deriving DecidableEq, Repr

/-- The effect of one operation on a view: an append writes the text and the
library redraws; the other four are the handlers. -/
def applyOp (lib : Lib) (v : View) : Op → View
  | .append text => redraw (Write v text)
  | .scrollDown => scrollView lib v 5
  | .scrollUp => scrollView lib v (-5)
  | .cursorDown => ((cursorDown (some v)).1).getD v
  | .cursorUp => ((cursorUp (some v)).1).getD v

/-- A finite sequence of operations. -/
def runOps (lib : Lib) (v : View) (ops : List Op) : View := ops.foldl (applyOp lib) v

/-- A reset viewport of the given size: empty, origin 0, cursor 0, autoscroll. -/
def resetViewport (sizeX sizeY : Int) : View :=
  { buffer := "", ox := 0, oy := 0, cx := 0, cy := 0, autoscroll := true,
    sizeX := sizeX, sizeY := sizeY }

/-- The viewport invariant as the specification states it. -/
def SpecInvariant (v : View) : Prop :=
  0 ≤ v.oy ∧ v.oy ≤ max 0 (totalLines v - v.sizeY) ∧ 0 ≤ v.cy
    ∧ (v.cy < totalLines v ∨ (totalLines v = 0 ∧ v.cy = 0 ∧ v.oy = 0))

/-- The bounds the handlers do keep: origin and cursor are not negative and the
cursor is 0 or on one of the view's rows. -/
def RowInvariant (v : View) : Prop :=
  0 ≤ v.oy ∧ 0 ≤ v.cy ∧ (v.cy = 0 ∨ v.cy < v.sizeY)

/-- The rendered log lines of a trace, in order: message and time stamp. -/
def renderedLines : List Call → List (String × Int)
  | [] => []
  | Call.renderLine logLine timestamp :: rest => (logLine, timestamp) :: renderedLines rest
  | _ :: rest => renderedLines rest

/-- The two arguments the rendering loop passes to `colorizeLogLine` for one
event: the message and the time stamp divided by 1000. -/
def lineArgs (log : OutputLogEvent) : String × Int :=
  (StringValue log.message, Int.tdiv (Int64Value log.timestamp) 1000)

/-- The events `getLogs` returns for a log group. -/
def groupEvents (cw : Clients) (logGroup : LogGroup) : List OutputLogEvent :=
  (getLogs cw (StringValue logGroup.logGroupName)).1.1

/-! ## Sample library functions -/

/-- The text of a buffer split at its newlines. -/
def splitLines : List Char → List (List Char)
  | [] => [[]]
  | c :: cs =>
    match splitLines cs with
    | [] => [[]]
    | l :: ls => if c = '\n' then [] :: l :: ls else (c :: l) :: ls

/-- A vertical cursor move in the manner of gocui's `MoveCursor`: the cursor
moves inside the view, the origin moves by one line at its edge. -/
def moveRows (v : View) (dy : Int) : View :=
  let cy := v.cy + dy
  if cy < 0 then
    if v.oy > 0 then { v with oy := v.oy - 1 } else v
  else if v.oy + cy < totalLines v then
    if cy ≥ v.sizeY then { v with oy := v.oy + 1 } else { v with cy := cy }
  else v

/-- A sample of the external functions: decimal time stamps, formats without
verbs, lines looked up from the origin. -/
def sampleLib : Lib where
  timeString := fun sec => toString sec
  format0 := fun f => f
  viewLine := fun v y =>
    if v.oy + y < 0 then ("", some ⟨"invalid point"⟩)
    else
      match (splitLines v.buffer.toList).get? (v.oy + y).toNat with
      | some l => (String.mk l, none)
      | none => ("", some ⟨"invalid point"⟩)
  moveCursor := fun v _ dy _ => moveRows v dy

/-- A function record with the given name and no other field. -/
def named (name : String) : FunctionConfiguration :=
  { functionName := some name, description := none, lastModified := none,
    memorySize := none, role := none, runtime := none, timeout := none }

/-- The name column of a list of function records, as `layout` reads it. -/
def namesOf (functions : List FunctionConfiguration) : List String :=
  functions.map (fun f => StringValue f.functionName)

/-! ## Sample backends -/

/-- The stream names of the scenario: `B` is the newer stream, `A` the older. -/
def streamA : LogStream := ⟨some "A"⟩

/-- The newer stream of the scenario. -/
def streamB : LogStream := ⟨some "B"⟩

/-- A backend for the entity `orderSvc`: streams `[B, A]`, one event each. -/
def orderSvc : Clients where
  describeLogStreams := fun _ => .ok [streamB, streamA]
  getLogEvents := fun i =>
    if i.logStreamName = some "A" then .ok [⟨some 100, some "START RequestId: 1"⟩]
    else .ok [⟨some 105, some "hello"⟩]
  describeLogGroups := fun _ => .ok [⟨some "/aws/lambda/orderSvc"⟩]
  getFunctionConfiguration := fun _ => (⟨none, none, none, none, none, none, none⟩, none)
  listFunctions := .ok []

/-- The backend `orderSvc` with the fetch of stream `A` (the second one
fetched) failing. -/
def orderSvcSecondFails : Clients :=
  { orderSvc with
    getLogEvents := fun i =>
      if i.logStreamName = some "A" then .error ⟨"SourceUnavailable"⟩
      else .ok [⟨some 105, some "hello"⟩] }

/-- A backend whose newer stream `B` started before the older stream `A` ended:
`B` holds the events at 1000 and 3000, `A` the event at 2000. -/
def interleaved : Clients :=
  { orderSvc with
    getLogEvents := fun i =>
      if i.logStreamName = some "A" then .ok [⟨some 2000, some "a1"⟩]
      else .ok [⟨some 1000, some "b1"⟩, ⟨some 3000, some "b2"⟩] }

/-- A backend whose metadata call fails; its log calls answer as `orderSvc`. -/
def statusFails : Clients :=
  { orderSvc with
    getFunctionConfiguration := fun _ =>
      (⟨none, none, none, none, none, none, none⟩, some ⟨"SourceUnavailable"⟩) }

/-- A dashboard on a terminal of 111 columns and 24 rows (`layout` gives the
entity list 30 by 24, the log view 80 by 13, the status view 80 by 8), with
`orderSvc` selected in the entity list and a scrolled log view that shows older
content. -/
def scrolledGui : Gui :=
  { side := { resetViewport 30 24 with buffer := "orderSvc\n" },
    logs := { resetViewport 80 13 with
      buffer := "old line\n", oy := 4, cy := 3, autoscroll := false },
    state := resetViewport 80 8 }

/-- The dashboard `scrolledGui` after the terminal shrank to 11 rows: `layout`
gives the log view the rows from -1 to 0, so it has no row left. -/
def flatGui : Gui :=
  { side := { scrolledGui.side with sizeY := 11 },
    logs := { scrolledGui.logs with sizeY := 0 },
    state := scrolledGui.state }

/-- A dashboard whose log view, 13 rows high, holds two lines after a
refresh. -/
def shortLogsGui : Gui :=
  { scrolledGui with logs := { resetViewport 80 13 with buffer := "a\nb\n" } }

/-- A dashboard on a terminal of 16 rows whose log view, 5 rows high, holds 10
lines and stands one line above the bottom with autoscroll off. -/
def nearBottomGui : Gui :=
  { side := { scrolledGui.side with sizeY := 16 },
    logs := { resetViewport 80 5 with
      buffer := "0\n1\n2\n3\n4\n5\n6\n7\n8\n9\n", oy := 4, autoscroll := false },
    state := scrolledGui.state }

/-! ## Theorems -/

theorem getLogsLoop_ok (cw : Clients) (logroup : String) (ev : LogStream → List OutputLogEvent) :
    ∀ (streams : List LogStream) (allEvents : List OutputLogEvent) (calls : List Call),
      (∀ s ∈ streams, cw.getLogEvents (eventsInput logroup s) = .ok (ev s)) →
      getLogsLoop cw logroup streams allEvents calls =
        (((streams.reverse.map ev).flatten ++ allEvents, none),
          calls ++ streams.map (fun s => Call.getLogEvents (eventsInput logroup s))) := by
  intro streams
  induction streams with
  | nil => intro allEvents calls _; simp [getLogsLoop]
  | cons s rest ih =>
    intro allEvents calls h
    have hs := h s (List.mem_cons_self _ _)
    have hrest : ∀ t ∈ rest, cw.getLogEvents (eventsInput logroup t) = .ok (ev t) :=
      fun t ht => h t (List.mem_cons_of_mem _ ht)
    simp only [getLogsLoop, hs]
    rw [ih _ _ hrest]
    simp [List.append_assoc]

theorem getLogsLoop_fail (cw : Clients) (logroup : String) (ev : LogStream → List OutputLogEvent)
    (s : LogStream) (post : List LogStream) (e : GoError)
    (hs : cw.getLogEvents (eventsInput logroup s) = .error e) :
    ∀ (pre : List LogStream) (allEvents : List OutputLogEvent) (calls : List Call),
      (∀ p ∈ pre, cw.getLogEvents (eventsInput logroup p) = .ok (ev p)) →
      getLogsLoop cw logroup (pre ++ s :: post) allEvents calls =
        (([], some e),
          calls ++ (pre ++ [s]).map (fun t => Call.getLogEvents (eventsInput logroup t))) := by
  intro pre
  induction pre with
  | nil => intro allEvents calls _; simp [getLogsLoop, hs]
  | cons p rest ih =>
    intro allEvents calls h
    have hp := h p (List.mem_cons_self _ _)
    have hrest : ∀ t ∈ rest, cw.getLogEvents (eventsInput logroup t) = .ok (ev t) :=
      fun t ht => h t (List.mem_cons_of_mem _ ht)
    simp only [List.cons_append, getLogsLoop, hp]
    have step := ih (ev p ++ allEvents)
      (calls ++ [Call.getLogEvents (eventsInput logroup p)]) hrest
    simp only [List.append_assoc] at step ⊢
    simpa using step

/-- C1: when the backend lists the streams `[s1, ..., sn]` (most recent first)
and every fetch succeeds, `getLogs` returns `events(sn) ++ ... ++ events(s1)`
with no error: the events of a stream stand after those of every stream in an
older position and before those of every stream in a newer position, in their
own order, and nothing is dropped or duplicated; zero streams give the empty
sequence. -/
theorem getLogs_concat (cw : Clients) (logroup : String) (streams : List LogStream)
    (ev : LogStream → List OutputLogEvent)
    (hlist : cw.describeLogStreams (streamInput logroup) = .ok streams)
    (hfetch : ∀ s ∈ streams, cw.getLogEvents (eventsInput logroup s) = .ok (ev s)) :
    (getLogs cw logroup).1 = ((streams.reverse.map ev).flatten, none)
    ∧ (∀ newer s older, streams = newer ++ s :: older →
        (getLogs cw logroup).1.1 =
          (older.reverse.map ev).flatten ++ ev s ++ (newer.reverse.map ev).flatten)
    ∧ ((getLogs cw logroup).1.1).Perm (streams.map ev).flatten
    ∧ (streams = [] → (getLogs cw logroup).1 = ([], none)) := by
  have h1 : (getLogs cw logroup).1 = ((streams.reverse.map ev).flatten, none) := by
    simp [getLogs, hlist, getLogsLoop_ok cw logroup ev streams [] _ hfetch]
  refine ⟨h1, ?_, ?_, ?_⟩
  · intro newer s older hsplit
    rw [h1, hsplit]
    simp [List.append_assoc]
  · rw [h1]
    exact List.Perm.flatten ((List.reverse_perm streams).map ev)
  · intro hnil
    rw [h1, hnil]
    rfl

/-- The scenario of C1: streams `[B, A]`, `events(A) = [(100, "START RequestId: 1")]`,
`events(B) = [(105, "hello")]`. -/
theorem getLogs_concat_witness :
    (getLogs orderSvc "/aws/lambda/orderSvc").1 =
      ([⟨some 100, some "START RequestId: 1"⟩, ⟨some 105, some "hello"⟩], none)
    ∧ (getLogs orderSvc "/aws/lambda/orderSvc").1 =
      (([streamB, streamA].reverse.map
        (fun s => if s = streamA then [(⟨some 100, some "START RequestId: 1"⟩ : OutputLogEvent)]
          else [⟨some 105, some "hello"⟩])).flatten, none) :=
  ⟨by decide,
   (getLogs_concat orderSvc "/aws/lambda/orderSvc" [streamB, streamA]
      (fun s => if s = streamA then [⟨some 100, some "START RequestId: 1"⟩]
        else [⟨some 105, some "hello"⟩])
      rfl (by intro s hs; simp at hs; rcases hs with rfl | rfl <;> rfl)).1⟩

theorem getLogsLoop_err_nil (cw : Clients) (logroup : String) :
    ∀ (streams : List LogStream) (allEvents : List OutputLogEvent) (calls : List Call),
      (getLogsLoop cw logroup streams allEvents calls).1.2 ≠ none →
      (getLogsLoop cw logroup streams allEvents calls).1.1 = [] := by
  intro streams
  induction streams with
  | nil => intro allEvents calls h; simp [getLogsLoop] at h
  | cons s rest ih =>
    intro allEvents calls h
    simp only [getLogsLoop] at h ⊢
    cases hs : cw.getLogEvents (eventsInput logroup s) with
    | error e => simp
    | ok r =>
      rw [hs] at h
      exact ih _ _ h

theorem getLogsLoop_none_iff (cw : Clients) (logroup : String) :
    ∀ (streams : List LogStream) (allEvents : List OutputLogEvent) (calls : List Call),
      (getLogsLoop cw logroup streams allEvents calls).1.2 = none ↔
      ∀ s ∈ streams, ∃ r, cw.getLogEvents (eventsInput logroup s) = .ok r := by
  intro streams
  induction streams with
  | nil => intro allEvents calls; simp [getLogsLoop]
  | cons s rest ih =>
    intro allEvents calls
    simp only [getLogsLoop]
    cases hs : cw.getLogEvents (eventsInput logroup s) with
    | error e => simp [hs]
    | ok r =>
      simp only [List.mem_cons, forall_eq_or_imp]
      rw [ih]
      simp [hs]

/-- C3: when listing the streams fails, or the fetch of a stream fails after
the fetches before it succeeded, `getLogs` returns that error with no events,
and the calls it made stop at the failing one; whenever it returns an error it
returns no events; it returns no error exactly when every call succeeds. -/
theorem getLogs_failure (cw : Clients) (logroup : String) :
    (∀ e, cw.describeLogStreams (streamInput logroup) = .error e →
        getLogs cw logroup = (([], some e), [Call.describeLogStreams (streamInput logroup)]))
    ∧ (∀ pre s post e (ev : LogStream → List OutputLogEvent),
        cw.describeLogStreams (streamInput logroup) = .ok (pre ++ s :: post) →
        (∀ p ∈ pre, cw.getLogEvents (eventsInput logroup p) = .ok (ev p)) →
        cw.getLogEvents (eventsInput logroup s) = .error e →
        getLogs cw logroup = (([], some e), Call.describeLogStreams (streamInput logroup) ::
          (pre ++ [s]).map (fun t => Call.getLogEvents (eventsInput logroup t))))
    ∧ ((getLogs cw logroup).1.2 ≠ none → (getLogs cw logroup).1.1 = [])
    ∧ ((getLogs cw logroup).1.2 = none ↔
        ∃ streams, cw.describeLogStreams (streamInput logroup) = .ok streams ∧
          ∀ s ∈ streams, ∃ r, cw.getLogEvents (eventsInput logroup s) = .ok r) := by
  refine ⟨?_, ?_, ?_, ?_⟩
  · intro e he
    simp [getLogs, he]
  · intro pre s post e ev hlist hpre hs
    simp only [getLogs, hlist]
    rw [getLogsLoop_fail cw logroup ev s post e hs pre [] _ hpre]
    simp
  · intro h
    simp only [getLogs] at h ⊢
    cases hd : cw.describeLogStreams (streamInput logroup) with
    | error e => simp
    | ok streams =>
      rw [hd] at h
      exact getLogsLoop_err_nil cw logroup streams _ _ h
  · simp only [getLogs]
    cases hd : cw.describeLogStreams (streamInput logroup) with
    | error e => simp
    | ok streams =>
      simp only [getLogsLoop_none_iff, Except.ok.injEq, exists_eq_left']

/-- The scenario of C3: the fetch of the second stream fails. -/
theorem getLogs_failure_witness :
    getLogs orderSvcSecondFails "/aws/lambda/orderSvc" =
      (([], some ⟨"SourceUnavailable"⟩),
        [Call.describeLogStreams (streamInput "/aws/lambda/orderSvc"),
         Call.getLogEvents (eventsInput "/aws/lambda/orderSvc" streamB),
         Call.getLogEvents (eventsInput "/aws/lambda/orderSvc" streamA)]) :=
  (getLogs_failure orderSvcSecondFails "/aws/lambda/orderSvc").2.1
    [streamB] streamA [] ⟨"SourceUnavailable"⟩ (fun _ => [⟨some 105, some "hello"⟩])
    rfl (by intro p hp; simp at hp; subst hp; rfl) rfl

theorem HasPrefix_iff (s start : String) :
    HasPrefix s start = true ↔ start.toList <+: s.toList := by
  simp [HasPrefix, List.isPrefixOf_iff_prefix]

theorem beginsWithMarker_iff (msg : String) :
    BeginsWithMarker msg ↔
      (HasPrefix msg "START RequestId:" || HasPrefix msg "END RequestId:"
        || HasPrefix msg "REPORT RequestId:") = true := by
  simp only [BeginsWithMarker, markers, List.mem_cons, List.mem_singleton, Bool.or_eq_true,
    HasPrefix_iff]
  constructor
  · rintro ⟨m, hm, hp⟩
    rcases hm with rfl | rfl | rfl | hm
    · exact Or.inl (Or.inl hp)
    · exact Or.inl (Or.inr hp)
    · exact Or.inr hp
    · simp at hm
  · rintro ((h | h) | h)
    · exact ⟨_, Or.inl rfl, h⟩
    · exact ⟨_, Or.inr (Or.inl rfl), h⟩
    · exact ⟨_, Or.inr (Or.inr (Or.inl rfl)), h⟩

theorem inverseStyle_ne_plainStyle (lib : Lib) (msg : String) (t t2 : Int)
    (ht : (lib.timeString t).length = (lib.timeString t2).length) :
    inverseStyle lib msg t ≠ plainStyle lib msg t2 := by
  intro h
  have hl := congrArg String.length h
  simp only [inverseStyle, plainStyle, stamp, String.length_append] at hl
  have e1 : ("\x1b[32;7m" : String).length = 7 := by decide
  have e2 : ("\x1b[0m" : String).length = 4 := by decide
  omega

theorem colorizeLogLine_marker (lib : Lib) (msg : String) (ts : Int) (h : BeginsWithMarker msg) :
    colorizeLogLine lib msg ts = inverseStyle lib msg ts := by
  have hb := (beginsWithMarker_iff msg).1 h
  simp only [colorizeLogLine, hb, if_true, inverseStyle, stamp]
  simp [String.append_assoc]
  rfl

theorem colorizeLogLine_other (lib : Lib) (msg : String) (ts : Int) (h : ¬ BeginsWithMarker msg) :
    colorizeLogLine lib msg ts = plainStyle lib msg ts := by
  have hb : ¬ ((HasPrefix msg "START RequestId:" || HasPrefix msg "END RequestId:"
        || HasPrefix msg "REPORT RequestId:") = true) := fun hb => h ((beginsWithMarker_iff msg).2 hb)
  simp only [colorizeLogLine, hb, if_false, plainStyle, stamp]
  simp [String.append_assoc]

theorem not_beginsWithMarker_after_char (c : Char) (m rest : String) (hm : m ∈ markers) :
    ¬ BeginsWithMarker (String.mk (c :: (m.toList ++ rest.toList))) := by
  rw [beginsWithMarker_iff]
  simp only [markers, List.mem_cons, List.mem_singleton, List.not_mem_nil, or_false] at hm
  rcases hm with rfl | rfl | rfl <;>
    simp [HasPrefix, List.isPrefixOf]

/-- C4: `colorizeLogLine` renders a message in the inverse style exactly when
it begins with one of the three markers and in the plain style exactly when it
does not; which of the two does not depend on the time stamp; the empty
message, a marker after any character and a marker in another case are
plain. -/
theorem colorizeLogLine_classifies (lib : Lib) (msg : String) (ts : Int) :
    (colorizeLogLine lib msg ts = inverseStyle lib msg ts ↔ BeginsWithMarker msg)
    ∧ (colorizeLogLine lib msg ts = plainStyle lib msg ts ↔ ¬ BeginsWithMarker msg)
    ∧ (∀ ts2 : Int, colorizeLogLine lib msg ts = inverseStyle lib msg ts ↔
        colorizeLogLine lib msg ts2 = inverseStyle lib msg ts2)
    ∧ ¬ BeginsWithMarker ""
    ∧ (∀ (c : Char) (m rest : String), m ∈ markers →
        ¬ BeginsWithMarker (String.mk (c :: (m.toList ++ rest.toList))))
    ∧ ¬ BeginsWithMarker "start requestid: 1"
    ∧ ¬ BeginsWithMarker "End RequestId: 1"
    ∧ ¬ BeginsWithMarker "REPORT requestId: 1" := by
  have key : ∀ t : Int, colorizeLogLine lib msg t = inverseStyle lib msg t ↔
      BeginsWithMarker msg := by
    intro t
    constructor
    · intro h
      by_contra hn
      rw [colorizeLogLine_other lib msg t hn] at h
      exact inverseStyle_ne_plainStyle lib msg t t rfl h.symm
    · exact colorizeLogLine_marker lib msg t
  refine ⟨key ts, ?_, ?_, ?_, not_beginsWithMarker_after_char, ?_, ?_, ?_⟩
  · constructor
    · intro h hm
      rw [colorizeLogLine_marker lib msg ts hm] at h
      exact inverseStyle_ne_plainStyle lib msg ts ts rfl h
    · exact colorizeLogLine_other lib msg ts
  · intro ts2
    rw [key ts, key ts2]
  · rw [beginsWithMarker_iff]; decide
  · rw [beginsWithMarker_iff]; decide
  · rw [beginsWithMarker_iff]; decide
  · rw [beginsWithMarker_iff]; decide

theorem containsChars_iff (sub : List Char) :
    ∀ s : List Char, containsChars sub s = true ↔ sub <:+: s := by
  intro s
  induction s with
  | nil =>
    simp [containsChars, List.isPrefixOf_iff_prefix, List.infix_nil, List.prefix_nil]
  | cons c cs ih =>
    simp only [containsChars, Bool.or_eq_true, List.isPrefixOf_iff_prefix, ih]
    exact List.infix_cons_iff.symm

theorem Contains_iff (s substr : String) :
    Contains s substr = true ↔ substr.toList <:+: s.toList :=
  containsChars_iff _ _

theorem Contains_empty (s : String) : Contains s "" = true := by
  rw [Contains_iff]
  exact List.nil_infix

theorem lexLE_total : ∀ a b : List Nat, lexLE a b = true ∨ lexLE b a = true := by
  intro a
  induction a with
  | nil => intro b; simp [lexLE]
  | cons x xs ih =>
    intro b
    cases b with
    | nil => simp [lexLE]
    | cons y ys =>
      simp only [lexLE, Bool.or_eq_true, Bool.and_eq_true, decide_eq_true_eq]
      rcases Nat.lt_trichotomy x y with h | h | h
      · exact Or.inl (Or.inl h)
      · rcases ih ys with h2 | h2
        · exact Or.inl (Or.inr ⟨h, h2⟩)
        · exact Or.inr (Or.inr ⟨h.symm, h2⟩)
      · exact Or.inr (Or.inl h)

theorem lexLE_trans : ∀ a b c : List Nat, lexLE a b = true → lexLE b c = true →
    lexLE a c = true := by
  intro a
  induction a with
  | nil => intro b c _ _; simp [lexLE]
  | cons x xs ih =>
    intro b c hab hbc
    cases b with
    | nil => simp [lexLE] at hab
    | cons y ys =>
      cases c with
      | nil => simp [lexLE] at hbc
      | cons z zs =>
        simp only [lexLE, Bool.or_eq_true, Bool.and_eq_true, decide_eq_true_eq] at hab hbc ⊢
        rcases hab with h1 | ⟨h1, h1t⟩
        · rcases hbc with h2 | ⟨h2, _⟩
          · exact Or.inl (lt_trans h1 h2)
          · exact Or.inl (h2 ▸ h1)
        · rcases hbc with h2 | ⟨h2, h2t⟩
          · exact Or.inl (h1 ▸ h2)
          · exact Or.inr ⟨h1.trans h2, ih ys zs h1t h2t⟩

theorem sortStrings_sorted (l : List String) : List.Sorted StringLE (sortStrings l) := by
  haveI : IsTotal String StringLE := ⟨fun a b => lexLE_total (bytes a) (bytes b)⟩
  haveI : IsTrans String StringLE := ⟨fun a b c => lexLE_trans (bytes a) (bytes b) (bytes c)⟩
  exact List.sorted_insertionSort StringLE l

theorem sortStrings_perm (l : List String) : (sortStrings l).Perm l :=
  List.perm_insertionSort StringLE l

theorem functionNamesLoop_eq (functionNameFilter : String) :
    ∀ (functions : List FunctionConfiguration) (functionNames : List String),
      functionNamesLoop functionNameFilter functions functionNames =
        functionNames ++ (namesOf functions).filter (fun n => Contains n functionNameFilter) := by
  intro functions
  induction functions with
  | nil => intro acc; simp [functionNamesLoop, namesOf]
  | cons f rest ih =>
    intro acc
    by_cases hf : functionNameFilter = ""
    · subst hf
      simp only [functionNamesLoop, ne_eq, not_true_eq_false, if_false, ih, namesOf,
        List.map_cons, Contains_empty, List.filter_cons_of_pos, List.append_assoc,
        List.singleton_append]
    · by_cases hc : Contains (StringValue f.functionName) functionNameFilter = true
      · simp [functionNamesLoop, hf, hc, ih, namesOf]
      · simp [functionNamesLoop, hf, hc, ih, namesOf]

/-- C5: the names `layout` displays are the names that contain the filter as a
substring (all of them for the empty filter), each as many times as it occurs
among the functions, in ascending byte-wise order; `["b", "alpha", "Zeta"]`
filtered by `"a"` is displayed as `["Zeta", "alpha"]`. -/
theorem displayedNames_filtered_sorted (functionNameFilter : String)
    (functions : List FunctionConfiguration) :
    List.Sorted StringLE (displayedNames functionNameFilter functions)
    ∧ (displayedNames functionNameFilter functions).Perm
        ((namesOf functions).filter (fun n => Contains n functionNameFilter))
    ∧ (∀ n : String, n ∈ displayedNames functionNameFilter functions ↔
        n ∈ namesOf functions ∧ functionNameFilter.toList <:+: n.toList)
    ∧ (∀ n : String, functionNameFilter.toList <:+: n.toList →
        (displayedNames functionNameFilter functions).count n = (namesOf functions).count n)
    ∧ (functionNameFilter = "" →
        (displayedNames functionNameFilter functions).Perm (namesOf functions))
    ∧ displayedNames "a" [named "b", named "alpha", named "Zeta"] = ["Zeta", "alpha"]
    ∧ (layoutSide { orderSvc with
          listFunctions := .ok [named "b", named "alpha", named "Zeta"] } "a"
        (resetViewport 30 24)).1.1.buffer = "Zeta\nalpha\n" := by
  have hperm : (displayedNames functionNameFilter functions).Perm
      ((namesOf functions).filter (fun n => Contains n functionNameFilter)) := by
    unfold displayedNames
    rw [functionNamesLoop_eq]
    simpa using sortStrings_perm _
  refine ⟨sortStrings_sorted _, hperm, ?_, ?_, ?_, by decide, by decide⟩
  · intro n
    rw [hperm.mem_iff, List.mem_filter, Contains_iff]
  · intro n hn
    rw [hperm.count_eq]
    exact List.count_filter ((Contains_iff n functionNameFilter).2 hn)
  · intro hf
    subst hf
    refine hperm.trans ?_
    simp [Contains_empty]

theorem renderedLines_append (a b : List Call) :
    renderedLines (a ++ b) = renderedLines a ++ renderedLines b := by
  induction a with
  | nil => rfl
  | cons c rest ih => cases c <;> simp [renderedLines, ih]

theorem renderedLines_getLogsLoop (cw : Clients) (logroup : String) :
    ∀ (streams : List LogStream) (allEvents : List OutputLogEvent) (calls : List Call),
      renderedLines (getLogsLoop cw logroup streams allEvents calls).2 = renderedLines calls := by
  intro streams
  induction streams with
  | nil => intro allEvents calls; rfl
  | cons s rest ih =>
    intro allEvents calls
    simp only [getLogsLoop]
    cases hs : cw.getLogEvents (eventsInput logroup s) with
    | error e => simp [renderedLines_append, renderedLines]
    | ok r => simp [ih, renderedLines_append, renderedLines]

theorem renderedLines_getLogs (cw : Clients) (logroup : String) :
    renderedLines (getLogs cw logroup).2 = [] := by
  simp only [getLogs]
  cases hd : cw.describeLogStreams (streamInput logroup) with
  | error e => simp [renderedLines]
  | ok streams => simp [renderedLines_getLogsLoop, renderedLines]

theorem renderedLines_renderLogs (lib : Lib) :
    ∀ (logs : List OutputLogEvent) (v : View) (calls : List Call),
      renderedLines (renderLogs lib v logs calls).2 = renderedLines calls ++ logs.map lineArgs := by
  intro logs
  induction logs with
  | nil => intro v calls; simp [renderLogs]
  | cons log rest ih =>
    intro v calls
    simp [renderLogs, ih, renderedLines_append, renderedLines, lineArgs]

theorem renderedLines_updateLogsGroups (lib : Lib) (cw : Clients) :
    ∀ (groups : List LogGroup) (v : View) (calls : List Call),
      (∀ grp ∈ groups, (getLogs cw (StringValue grp.logGroupName)).1.2 = none) →
      renderedLines (updateLogsGroups lib cw v groups calls).2 =
        renderedLines calls ++ (groups.flatMap (groupEvents cw)).map lineArgs := by
  intro groups
  induction groups with
  | nil => intro v calls _; simp [updateLogsGroups]
  | cons grp rest ih =>
    intro v calls h
    have hg := h grp (List.mem_cons_self _ _)
    have hrest : ∀ g2 ∈ rest, (getLogs cw (StringValue g2.logGroupName)).1.2 = none :=
      fun g2 hg2 => h g2 (List.mem_cons_of_mem _ hg2)
    rcases hres : getLogs cw (StringValue grp.logGroupName) with ⟨⟨logs, err⟩, cs⟩
    rw [hres] at hg
    simp only at hg
    subst hg
    have hcs : renderedLines cs = [] := by
      have := renderedLines_getLogs cw (StringValue grp.logGroupName)
      rw [hres] at this
      exact this
    simp only [updateLogsGroups, hres]
    rw [ih _ _ hrest, renderedLines_renderLogs, renderedLines_append, hcs]
    simp [groupEvents, hres, List.append_assoc]

theorem tdiv_thousand_mono (a b : Int) (h : a ≤ b) : Int.tdiv a 1000 ≤ Int.tdiv b 1000 := by
  rcases le_or_lt 0 a with ha | ha
  · rw [Int.tdiv_eq_ediv ha (by norm_num), Int.tdiv_eq_ediv (le_trans ha h) (by norm_num)]
    omega
  · have ea : Int.tdiv a 1000 = -((-a) / 1000) := by
      have := Int.neg_tdiv (-a) 1000
      rw [neg_neg] at this
      rw [this, Int.tdiv_eq_ediv (by omega) (by norm_num)]
    rcases le_or_lt 0 b with hb | hb
    · rw [ea, Int.tdiv_eq_ediv hb (by norm_num)]
      omega
    · have eb : Int.tdiv b 1000 = -((-b) / 1000) := by
        have := Int.neg_tdiv (-b) 1000
        rw [neg_neg] at this
        rw [this, Int.tdiv_eq_ediv (by omega) (by norm_num)]
      rw [ea, eb]
      omega

/-- C2, as the code has it: when the log groups are listed and every `getLogs`
succeeds, the lines of a refresh cycle are the events in `getLogs` order, group
after group, each with its time stamp divided by 1000; nothing sorts them, so
they are non-decreasing in time stamp when those events already are. -/
theorem refresh_lines_in_fetch_order (lib : Lib) (cw : Clients) (g : Gui)
    (functionName : String) (groups : List LogGroup)
    (hgroups : cw.describeLogGroups ⟨some ("/aws/lambda/" ++ functionName)⟩ = .ok groups)
    (hlogs : ∀ grp ∈ groups, (getLogs cw (StringValue grp.logGroupName)).1.2 = none) :
    renderedLines (updateLogsView lib cw g functionName).2 =
        (groups.flatMap (groupEvents cw)).map lineArgs
    ∧ (List.Sorted (· ≤ ·)
          ((groups.flatMap (groupEvents cw)).map (fun log => Int64Value log.timestamp)) →
        List.Sorted (· ≤ ·)
          ((renderedLines (updateLogsView lib cw g functionName).2).map Prod.snd)) := by
  have h1 : renderedLines (updateLogsView lib cw g functionName).2 =
      (groups.flatMap (groupEvents cw)).map lineArgs := by
    simp only [updateLogsView, getLogGroup, hgroups]
    rw [renderedLines_updateLogsGroups lib cw groups _ _ hlogs]
    simp [renderedLines]
  refine ⟨h1, ?_⟩
  intro hs
  rw [h1]
  simp only [List.Sorted, List.map_map, List.pairwise_map] at hs ⊢
  exact hs.imp (fun {a b} hab => tdiv_thousand_mono _ _ hab)

/-- The amended C2 at the backend `orderSvc`. -/
theorem refresh_lines_in_fetch_order_witness :
    renderedLines (updateLogsView sampleLib orderSvc scrolledGui "orderSvc").2 =
      [("START RequestId: 1", 0), ("hello", 0)] := by
  have h := (refresh_lines_in_fetch_order sampleLib orderSvc scrolledGui "orderSvc"
    [⟨some "/aws/lambda/orderSvc"⟩] rfl (by intro grp hg; simp at hg; subst hg; rfl)).1
  rw [h]
  decide

/-- C2 fails as stated: with streams `[B, A]`, `B` holding the events at 1000
and 3000 and `A` the event at 2000, the cycle renders the lines with the time
stamps 2, 1, 3. -/
theorem refresh_lines_not_sorted :
    (renderedLines (updateLogsView sampleLib interleaved scrolledGui "orderSvc").2).map Prod.snd
        = [2, 1, 3]
    ∧ ¬ List.Sorted (· ≤ ·)
        ((renderedLines (updateLogsView sampleLib interleaved scrolledGui "orderSvc").2).map
          Prod.snd) := by
  have h : (renderedLines (updateLogsView sampleLib interleaved scrolledGui "orderSvc").2).map
      Prod.snd = [2, 1, 3] := by decide
  refine ⟨h, ?_⟩
  rw [h]
  decide

theorem Write_empty (v : View) : Write v "" = v := by
  cases v
  simp [Write]

theorem Write_Write (v : View) (a b : String) : Write (Write v a) b = Write v (a ++ b) := by
  simp [Write, String.append_assoc]

theorem renderLogs_writes (lib : Lib) :
    ∀ logs : List OutputLogEvent, ∃ text : String, ∀ (v : View) (calls : List Call),
      (renderLogs lib v logs calls).1 = Write v text := by
  intro logs
  induction logs with
  | nil => exact ⟨"", fun v calls => by simp [renderLogs, Write_empty]⟩
  | cons log rest ih =>
    obtain ⟨text, ht⟩ := ih
    refine ⟨lib.format0 (colorizeLogLine lib (StringValue log.message)
      (Int.tdiv (Int64Value log.timestamp) 1000)) ++ text, fun v calls => ?_⟩
    simp only [renderLogs]
    rw [ht, Write_Write]

theorem updateLogsGroups_writes (lib : Lib) (cw : Clients) :
    ∀ groups : List LogGroup, ∃ text : String, ∀ (v : View) (calls : List Call),
      (updateLogsGroups lib cw v groups calls).1.1 = Write v text := by
  intro groups
  induction groups with
  | nil => exact ⟨"", fun v calls => by simp [updateLogsGroups, Write_empty]⟩
  | cons grp rest ih =>
    obtain ⟨text, ht⟩ := ih
    rcases hres : getLogs cw (StringValue grp.logGroupName) with ⟨⟨logs, err⟩, cs⟩
    cases err with
    | some e => exact ⟨"", fun v calls => by simp [updateLogsGroups, hres, Write_empty]⟩
    | none =>
      obtain ⟨t1, h1⟩ := renderLogs_writes lib logs
      refine ⟨t1 ++ text, fun v calls => ?_⟩
      simp only [updateLogsGroups, hres]
      rw [ht, h1, Write_Write]

theorem resetLogs_eq (v : View) (hx : 0 < v.sizeX) (hy : 0 < v.sizeY) :
    resetLogs v = resetViewport v.sizeX v.sizeY := by
  have c1 : ¬ (v.sizeX ≤ 0 ∨ v.sizeY ≤ 0) := by omega
  simp [resetLogs, Clear, SetCursor, SetOrigin, resetViewport, c1]

theorem resetLogs_buffer (v : View) : (resetLogs v).buffer = "" := by
  simp only [resetLogs, Clear, SetCursor, SetOrigin]
  split_ifs <;> rfl

/-- C10, as the code has it: on a log view with at least one column and one
row, `updateLogsView` first brings the view to the reset state (empty buffer,
origin 0, cursor 0, autoscroll on); whatever the backend answers, the view it
leaves is that reset view plus the text written in this cycle, a text that
does not depend on the state before the cycle; when listing the log groups or
the first `getLogs` fails, the buffer is empty and the error is returned. -/
theorem updateLogsView_resets (lib : Lib) (cw : Clients) (g : Gui) (functionName : String)
    (hx : 0 < g.logs.sizeX) (hy : 0 < g.logs.sizeY) :
    resetLogs g.logs = resetViewport g.logs.sizeX g.logs.sizeY
    ∧ (∃ text : String,
        (∀ g2 : Gui, (updateLogsView lib cw g2 functionName).1.1.logs.buffer = text)
        ∧ (updateLogsView lib cw g functionName).1.1 =
            { g with logs := { resetViewport g.logs.sizeX g.logs.sizeY with buffer := text } })
    ∧ (∀ e, cw.describeLogGroups ⟨some ("/aws/lambda/" ++ functionName)⟩ = .error e →
        (updateLogsView lib cw g functionName).1 =
          ({ g with logs := resetViewport g.logs.sizeX g.logs.sizeY }, some e))
    ∧ (∀ grp rest e, cw.describeLogGroups ⟨some ("/aws/lambda/" ++ functionName)⟩
          = .ok (grp :: rest) →
        (getLogs cw (StringValue grp.logGroupName)).1.2 = some e →
        (updateLogsView lib cw g functionName).1 =
          ({ g with logs := resetViewport g.logs.sizeX g.logs.sizeY }, some e)) := by
  have hreset := resetLogs_eq g.logs hx hy
  refine ⟨hreset, ?_, ?_, ?_⟩
  · cases hd : cw.describeLogGroups ⟨some ("/aws/lambda/" ++ functionName)⟩ with
    | error e =>
      refine ⟨"", fun g2 => ?_, ?_⟩
      · simp [updateLogsView, getLogGroup, hd, resetLogs_buffer]
      · simp [updateLogsView, getLogGroup, hd, hreset, resetViewport]
    | ok groups =>
      obtain ⟨text, ht⟩ := updateLogsGroups_writes lib cw groups
      refine ⟨text, fun g2 => ?_, ?_⟩
      · simp only [updateLogsView, getLogGroup, hd]
        rw [ht]
        simp [Write, resetLogs_buffer]
      · simp only [updateLogsView, getLogGroup, hd]
        rw [ht, hreset]
        simp [Write, resetViewport]
  · intro e hd
    simp [updateLogsView, getLogGroup, hd, hreset]
  · intro grp rest e hd hfail
    rcases hres : getLogs cw (StringValue grp.logGroupName) with ⟨⟨logs, err⟩, cs⟩
    rw [hres] at hfail
    simp only at hfail
    subst hfail
    simp [updateLogsView, getLogGroup, hd, updateLogsGroups, hres, hreset]

/-- The amended C10 at the backend whose second fetch fails. -/
theorem updateLogsView_resets_witness :
    (updateLogsView sampleLib orderSvcSecondFails scrolledGui "orderSvc").1 =
      ({ scrolledGui with logs := resetViewport 80 13 }, some ⟨"SourceUnavailable"⟩) :=
  (updateLogsView_resets sampleLib orderSvcSecondFails scrolledGui "orderSvc"
    (by decide) (by decide)).2.2.2 ⟨some "/aws/lambda/orderSvc"⟩ [] ⟨"SourceUnavailable"⟩
    rfl (by decide)

/-- C10 fails as stated: on a log view without rows `SetCursor(0, 0)` fails,
its error is dropped and the cursor stays on row 3. -/
theorem updateLogsView_keeps_cursor :
    flatGui.logs.cy = 3
    ∧ (updateLogsView sampleLib orderSvc flatGui "orderSvc").1.1.logs.cy = 3
    ∧ (updateLogsView sampleLib orderSvc flatGui "orderSvc").1.1.logs.cy ≠ 0 := by
  decide

theorem getLambdaStatus_no_error (svc : Clients) (functionName : String) :
    (getLambdaStatus svc functionName).1.2 = none := rfl

/-- C9 at a backend whose metadata call fails: `getLambdaStatus` returns no
error, so do `updateLambdaStatusView` and `updateView`, and the cycle goes on:
the log view is reset and the logs are fetched and rendered. -/
theorem status_error_is_dropped :
    (statusFails.getFunctionConfiguration ⟨some "orderSvc"⟩).2 = some ⟨"SourceUnavailable"⟩
    ∧ (getLambdaStatus statusFails "orderSvc").1.2 = none
    ∧ (updateLambdaStatusView statusFails scrolledGui "orderSvc").1.2 = none
    ∧ (updateView sampleLib statusFails scrolledGui).1.2 = none
    ∧ (updateView sampleLib statusFails scrolledGui).2 =
        [Call.getFunctionConfiguration ⟨some "orderSvc"⟩,
         Call.describeLogGroups ⟨some "/aws/lambda/orderSvc"⟩,
         Call.describeLogStreams (streamInput "/aws/lambda/orderSvc"),
         Call.getLogEvents (eventsInput "/aws/lambda/orderSvc" streamB),
         Call.getLogEvents (eventsInput "/aws/lambda/orderSvc" streamA),
         Call.renderLine "START RequestId: 1" 0,
         Call.renderLine "hello" 0]
    ∧ (updateView sampleLib statusFails scrolledGui).1.1.logs =
        { resetViewport 80 13 with
          buffer := "\x1b[32;5m0\x1b[0m - \x1b[32;7mSTART RequestId: 1\x1b[0m\n"
            ++ "\x1b[32;5m0\x1b[0m - hello\n" } := by
  decide

theorem cursorDown_some (v : View) :
    cursorDown (some v) =
      if v.cx < 0 ∨ v.cx ≥ v.sizeX ∨ v.cy + 1 < 0 ∨ v.cy + 1 ≥ v.sizeY then
        if v.ox < 0 ∨ v.oy + 1 < 0 then (some v, some ⟨"invalid point"⟩)
        else (some { v with oy := v.oy + 1 }, none)
      else (some { v with cy := v.cy + 1 }, none) := by
  by_cases h1 : v.cx < 0 ∨ v.cx ≥ v.sizeX ∨ v.cy + 1 < 0 ∨ v.cy + 1 ≥ v.sizeY
  · by_cases h2 : v.ox < 0 ∨ v.oy + 1 < 0
    · simp only [cursorDown, SetCursor, SetOrigin, if_pos h1, if_pos h2]
    · simp only [cursorDown, SetCursor, SetOrigin, if_pos h1, if_neg h2]
  · simp only [cursorDown, SetCursor, SetOrigin, if_neg h1]

theorem cursorUp_some (v : View) :
    cursorUp (some v) =
      if v.cx < 0 ∨ v.cx ≥ v.sizeX ∨ v.cy - 1 < 0 ∨ v.cy - 1 ≥ v.sizeY then
        if v.oy > 0 then
          if v.ox < 0 ∨ v.oy - 1 < 0 then (some v, some ⟨"invalid point"⟩)
          else (some { v with oy := v.oy - 1 }, none)
        else (some v, none)
      else (some { v with cy := v.cy - 1 }, none) := by
  by_cases h1 : v.cx < 0 ∨ v.cx ≥ v.sizeX ∨ v.cy - 1 < 0 ∨ v.cy - 1 ≥ v.sizeY
  · by_cases h0 : v.oy > 0
    · by_cases h2 : v.ox < 0 ∨ v.oy - 1 < 0
      · simp only [cursorUp, SetCursor, SetOrigin, if_pos h1, if_pos h0, if_pos h2]
      · simp only [cursorUp, SetCursor, SetOrigin, if_pos h1, if_pos h0, if_neg h2]
    · simp only [cursorUp, SetCursor, SetOrigin, if_pos h1, if_neg h0]
  · simp only [cursorUp, SetCursor, SetOrigin, if_neg h1]

theorem rowInvariant_cursorDown (v : View) (h : RowInvariant v) :
    RowInvariant (((cursorDown (some v)).1).getD v) := by
  obtain ⟨h1, h2, h3⟩ := h
  rw [cursorDown_some]
  split_ifs <;> simp only [Option.getD_some, RowInvariant] <;> omega

theorem rowInvariant_cursorUp (v : View) (h : RowInvariant v) :
    RowInvariant (((cursorUp (some v)).1).getD v) := by
  obtain ⟨h1, h2, h3⟩ := h
  rw [cursorUp_some]
  split_ifs <;> simp only [Option.getD_some, RowInvariant] <;> omega

theorem rowInvariant_append (v : View) (text : String) (h : RowInvariant v) :
    RowInvariant (redraw (Write v text)) := by
  obtain ⟨h1, h2, h3⟩ := h
  simp only [redraw, Write]
  split_ifs
  · exact ⟨le_max_left _ _, h2, h3⟩
  · exact ⟨h1, h2, h3⟩

theorem rowInvariant_scrollView (lib : Lib)
    (hmove : ∀ (v : View) (dy : Int), RowInvariant v →
      RowInvariant (lib.moveCursor v 0 dy false))
    (v : View) (dy : Int) (h : RowInvariant v) : RowInvariant (scrollView lib v dy) := by
  simp only [scrollView]
  split_ifs
  · exact h
  · exact hmove _ dy h

theorem rowInvariant_runOps (lib : Lib)
    (hmove : ∀ (v : View) (dy : Int), RowInvariant v →
      RowInvariant (lib.moveCursor v 0 dy false)) :
    ∀ (ops : List Op) (v : View), RowInvariant v → RowInvariant (runOps lib v ops) := by
  intro ops
  induction ops with
  | nil => intro v h; exact h
  | cons op rest ih =>
    intro v h
    simp only [runOps, List.foldl_cons]
    apply ih
    cases op with
    | append text => exact rowInvariant_append v text h
    | scrollDown => exact rowInvariant_scrollView lib hmove v 5 h
    | scrollUp => exact rowInvariant_scrollView lib hmove v (-5) h
    | cursorDown => exact rowInvariant_cursorDown v h
    | cursorUp => exact rowInvariant_cursorUp v h

theorem moveRows_rowInvariant (v : View) (dy : Int) (h : RowInvariant v) :
    RowInvariant (moveRows v dy) := by
  obtain ⟨h1, h2, h3⟩ := h
  simp only [moveRows]
  split_ifs <;> simp only [RowInvariant] <;> omega

theorem cursorDown_one_row (lib : Lib) (k : Nat) :
    runOps lib (resetViewport 1 1) (List.replicate k Op.cursorDown) =
      { resetViewport 1 1 with oy := (k : Int) } := by
  induction k with
  | zero => rfl
  | succ n ih =>
    rw [List.replicate_succ', runOps, List.foldl_append]
    change applyOp lib (runOps lib (resetViewport 1 1)
      (List.replicate n Op.cursorDown)) Op.cursorDown = _
    rw [ih]
    have hn : ¬ ((n : Int) + 1 < 0) := by omega
    simp [applyOp, cursorDown_some, resetViewport, hn]

/-- C6, as the code has it: from a reset viewport, after any finite sequence
of appends, scroll(+5), scroll(-5), cursorDown and cursorUp, the origin and the
cursor are not negative and the cursor is 0 or below the number of visible
rows, provided the library's `MoveCursor` keeps these bounds; the origin has
no upper bound: on an empty one-row view, k times cursorDown leave it at k. -/
theorem viewport_row_invariant (lib : Lib)
    (hmove : ∀ (v : View) (dy : Int), RowInvariant v →
      RowInvariant (lib.moveCursor v 0 dy false))
    (sizeX sizeY : Int) (ops : List Op) :
    RowInvariant (runOps lib (resetViewport sizeX sizeY) ops)
    ∧ (∀ k : Nat,
        (runOps lib (resetViewport 1 1) (List.replicate k Op.cursorDown)).oy = (k : Int)
        ∧ totalLines (runOps lib (resetViewport 1 1) (List.replicate k Op.cursorDown))
            = 0) := by
  refine ⟨rowInvariant_runOps lib hmove ops _ ⟨le_refl _, le_refl _, Or.inl rfl⟩, fun k => ?_⟩
  rw [cursorDown_one_row lib k]
  exact ⟨rfl, rfl⟩

/-- The amended C6 on a two-row view, with the sample `MoveCursor`. -/
theorem viewport_row_invariant_witness :
    RowInvariant (runOps sampleLib (resetViewport 30 2)
      [Op.append "a\nb\nc\n", Op.cursorDown, Op.cursorDown, Op.scrollUp, Op.cursorUp,
       Op.scrollDown]) :=
  (viewport_row_invariant sampleLib (fun v dy h => moveRows_rowInvariant v dy h) 30 2
    [Op.append "a\nb\nc\n", Op.cursorDown, Op.cursorDown, Op.scrollUp, Op.cursorUp,
     Op.scrollDown]).1

/-- C6 fails as stated: on an empty view with two rows, two cursorDown leave
the cursor on row 1 and the origin at 1, with no line in the buffer. -/
theorem viewport_invariant_broken :
    totalLines (runOps sampleLib (resetViewport 30 2) [Op.cursorDown, Op.cursorDown]) = 0
    ∧ (runOps sampleLib (resetViewport 30 2) [Op.cursorDown, Op.cursorDown]).oy = 1
    ∧ (runOps sampleLib (resetViewport 30 2) [Op.cursorDown, Op.cursorDown]).cy = 1
    ∧ ¬ SpecInvariant (runOps sampleLib (resetViewport 30 2) [Op.cursorDown, Op.cursorDown]) := by
  refine ⟨by decide, by decide, by decide, ?_⟩
  unfold SpecInvariant
  decide

/-- C7, as the code has it: `scroll` turns autoscroll on and leaves the view as
it is exactly when `oy + dy > n - y - 1`, in either direction; otherwise it
turns autoscroll off and hands the step to the library's `MoveCursor`.  A
backward step of 5 turns autoscroll on when the buffer has fewer than
`oy + y - 4` lines and off otherwise.  The other views are untouched. -/
theorem scroll_autoscroll_rule (lib : Lib) (g : Gui) (dy : Int) :
    (g.logs.oy + dy > totalLines g.logs - g.logs.sizeY - 1 →
        (scroll lib g dy).logs = { g.logs with autoscroll := true })
    ∧ (¬ (g.logs.oy + dy > totalLines g.logs - g.logs.sizeY - 1) →
        (scroll lib g dy).logs = lib.moveCursor { g.logs with autoscroll := false } 0 dy false)
    ∧ (totalLines g.logs < g.logs.oy + g.logs.sizeY - 4 →
        (logsUp lib g).1.logs = { g.logs with autoscroll := true })
    ∧ (g.logs.oy + g.logs.sizeY - 4 ≤ totalLines g.logs →
        (logsUp lib g).1.logs =
          lib.moveCursor { g.logs with autoscroll := false } 0 (-5) false)
    ∧ (g.logs.oy + g.logs.sizeY + 6 ≤ totalLines g.logs →
        (logsDown lib g).1.logs =
          lib.moveCursor { g.logs with autoscroll := false } 0 5 false)
    ∧ (totalLines g.logs < g.logs.oy + g.logs.sizeY + 6 →
        (logsDown lib g).1.logs = { g.logs with autoscroll := true })
    ∧ (scroll lib g dy).side = g.side ∧ (scroll lib g dy).state = g.state := by
  refine ⟨?_, ?_, ?_, ?_, ?_, ?_, rfl, rfl⟩
  · intro h
    simp only [scroll, scrollView, totalLines] at h ⊢
    rw [if_pos h]
  · intro h
    simp only [scroll, scrollView, totalLines] at h ⊢
    rw [if_neg h]
  · intro h
    have hc : g.logs.oy + (-5) > countNewlines (ViewBuffer g.logs) - g.logs.sizeY - 1 := by
      simp only [totalLines] at h; omega
    simp only [logsUp, scroll, scrollView]
    rw [if_pos hc]
  · intro h
    have hc : ¬ (g.logs.oy + (-5) > countNewlines (ViewBuffer g.logs) - g.logs.sizeY - 1) := by
      simp only [totalLines] at h; omega
    simp only [logsUp, scroll, scrollView]
    rw [if_neg hc]
  · intro h
    have hc : ¬ (g.logs.oy + 5 > countNewlines (ViewBuffer g.logs) - g.logs.sizeY - 1) := by
      simp only [totalLines] at h; omega
    simp only [logsDown, scroll, scrollView]
    rw [if_neg hc]
  · intro h
    have hc : g.logs.oy + 5 > countNewlines (ViewBuffer g.logs) - g.logs.sizeY - 1 := by
      simp only [totalLines] at h; omega
    simp only [logsDown, scroll, scrollView]
    rw [if_pos hc]

/-- The amended C7 on a log view of 5 rows with 10 lines and the origin at 4:
the forward step turns autoscroll on and moves nothing. -/
theorem scroll_autoscroll_rule_witness :
    (scroll sampleLib nearBottomGui 5).logs = { nearBottomGui.logs with autoscroll := true } :=
  (scroll_autoscroll_rule sampleLib nearBottomGui 5).1 (by decide)

/-- C7 fails as stated: on a log view of 13 rows that holds two lines, the
backward step turns autoscroll on and moves nothing. -/
theorem backward_step_keeps_autoscroll :
    (logsUp sampleLib shortLogsGui).1.logs.autoscroll = true
    ∧ (logsUp sampleLib shortLogsGui).1 = shortLogsGui
    ∧ ¬ ((logsUp sampleLib shortLogsGui).1.logs.autoscroll = false) := by
  decide

/-- C8, as the code has it: with more lines than rows and the origin at
`totalLines - visibleHeight - 1` (autoscroll off or on), `logsDown` turns
autoscroll on and leaves the origin where it is; the origin is
`totalLines - visibleHeight` after the library's next redraw. -/
theorem logsDown_reengages_autoscroll (lib : Lib) (g : Gui)
    (hlines : totalLines g.logs > g.logs.sizeY)
    (horigin : g.logs.oy = totalLines g.logs - g.logs.sizeY - 1) :
    (logsDown lib g).1.logs = { g.logs with autoscroll := true }
    ∧ (logsDown lib g).1.logs.autoscroll = true
    ∧ (logsDown lib g).1.logs.oy = totalLines g.logs - g.logs.sizeY - 1
    ∧ (redraw (logsDown lib g).1.logs).autoscroll = true
    ∧ (redraw (logsDown lib g).1.logs).oy = totalLines g.logs - g.logs.sizeY := by
  have hc : g.logs.oy + 5 > countNewlines (ViewBuffer g.logs) - g.logs.sizeY - 1 := by
    simp only [totalLines] at horigin; omega
  have h1 : (logsDown lib g).1.logs = { g.logs with autoscroll := true } := by
    simp only [logsDown, scroll, scrollView]
    rw [if_pos hc]
  refine ⟨h1, ?_, ?_, ?_, ?_⟩
  · rw [h1]
  · rw [h1]; exact horigin
  · rw [h1]; simp [redraw]
  · rw [h1]
    simp only [redraw, if_true]
    have ht : totalLines { g.logs with autoscroll := true } = totalLines g.logs := rfl
    show max 0 (totalLines { g.logs with autoscroll := true } - g.logs.sizeY) = _
    rw [ht]
    exact max_eq_right (by omega)

/-- The amended C8 on a view of 5 rows with 10 lines and the origin at 4. -/
theorem logsDown_reengages_autoscroll_witness :
    (logsDown sampleLib nearBottomGui).1.logs.autoscroll = true
    ∧ (logsDown sampleLib nearBottomGui).1.logs.oy = 4
    ∧ (redraw (logsDown sampleLib nearBottomGui).1.logs).oy = 5 := by
  have h := logsDown_reengages_autoscroll sampleLib nearBottomGui (by decide) (by decide)
  exact ⟨h.2.1, h.2.2.1, h.2.2.2.2⟩

/-- C8 fails as stated: with 10 lines, 5 rows, autoscroll off and the origin at
4, `logsDown` turns autoscroll on and the origin is still 4, not 5. -/
theorem logsDown_leaves_origin :
    totalLines nearBottomGui.logs = 10 ∧ nearBottomGui.logs.sizeY = 5
    ∧ nearBottomGui.logs.oy = 4 ∧ nearBottomGui.logs.autoscroll = false
    ∧ (logsDown sampleLib nearBottomGui).1.logs.autoscroll = true
    ∧ (logsDown sampleLib nearBottomGui).1.logs.oy = 4
    ∧ (logsDown sampleLib nearBottomGui).1.logs.oy ≠
        totalLines nearBottomGui.logs - nearBottomGui.logs.sizeY := by
  decide

end Lamb
